import Mathlib

/-!
Verification development for the `libro-be` corpus/analysis service.

The Python source is shallowly embedded: strings are lists of characters,
database tables are lists of records (in stored order), SQLAlchemy queries
become list filters/finds, and the external Analyzer is a function
parameter.  Each definition mirrors one Python function or code block and
is named after it.
-/

namespace Libro

/-- Python `str` modeled as a list of characters. -/
abbrev Str := List Char

/-- Character-wise `str.lower()` (ASCII case folding, as used by the corpus
book names and claim texts). -/
def lowerS (s : Str) : Str := s.map Char.toLower

/-- `sep.join(parts)` from Python: interleaves a single separator character. -/
def joinCh (sep : Char) : List Str → Str
  | [] => []
  | [w] => w
  | w :: ws => w ++ sep :: joinCh sep ws

/-- `s.split(sep)` from Python with an explicit one-character separator:
keeps empty fields, and the empty string splits to `[""]`. -/
def splitCh (sep : Char) : Str → List Str
  | [] => [[]]
  | c :: cs =>
    match splitCh sep cs with
    | [] => [[]]
    | w :: ws => if c = sep then [] :: w :: ws else (c :: w) :: ws

/-- `s.split(sep, 1)` from Python for a string known to contain `sep`:
the part before the first separator and the part after it. -/
def splitFirstCh (sep : Char) (s : Str) : Str × Str :=
  (s.takeWhile (fun c => c != sep), (s.dropWhile (fun c => c != sep)).tail)

/-- SQL `LIKE '%needle%'` / Python `needle in hay`: substring test. -/
def isSubstring (needle hay : Str) : Bool :=
  hay.tails.any (needle.isPrefixOf ·)

/-- Fuel-indexed decimal rendering; structural recursion keeps it
kernel-computable. -/
def natCharsAux : Nat → Nat → Str
  | 0, _ => []
  | fuel + 1, n =>
    if n < 10 then [Nat.digitChar n]
    else natCharsAux fuel (n / 10) ++ [Nat.digitChar (n % 10)]

/-- Decimal rendering of a natural number (Python `f"{n}"`). -/
def natChars (n : Nat) : Str := natCharsAux (n + 1) n

/-- Python `int(s)` restricted to plain decimal digit strings (the only
shape this code base feeds it); anything else raises, modeled as `none`. -/
def parseNat (s : Str) : Option Nat :=
  if s ≠ [] ∧ s.all (·.isDigit) then
    some (s.foldl (fun acc c => acc * 10 + (c.toNat - 48)) 0)
  else none

/-! ### Corpus data model (`models.py`)

Database tables are lists of records in stored order; the verses table is
stored in ascending id order (the spec's density/order invariant), so SQL
`ORDER BY id` is the identity on it. -/

/-- `Book` row from `models.py` (fields used by the claims). -/
structure Book where
  id : Nat
  name : Str
  abbreviation : Str
  order_number : Nat
deriving DecidableEq

/-- `Chapter` row from `models.py`. -/
structure Chapter where
  id : Nat
  book_id : Nat
  chapter_number : Nat
deriving DecidableEq

/-- `Verse` row from `models.py` (fields used by the claims). -/
structure Verse where
  id : Nat
  chapter_id : Nat
  verse_number : Nat
  text : Str
deriving DecidableEq

/-- The corpus database: the three tables. -/
structure Corpus where
  books : List Book
  chapters : List Chapter
  verses : List Verse
deriving DecidableEq

/-- `Verse.query.get(id)`: primary-key lookup. -/
def getVerse (c : Corpus) (vid : Nat) : Option Verse :=
  c.verses.find? (fun v => v.id == vid)

/-- `Chapter.query.get(id)` / following the `verse.chapter` foreign key. -/
def getChapterById (c : Corpus) (cid : Nat) : Option Chapter :=
  c.chapters.find? (fun ch => ch.id == cid)

/-- `Book.query.get(id)` / following the `chapter.book` foreign key. -/
def getBookById (c : Corpus) (bid : Nat) : Option Book :=
  c.books.find? (fun b => b.id == bid)

/-- `Verse.query.filter(Verse.id >= a, Verse.id <= b).order_by(Verse.id)`. -/
def versesInIdRange (c : Corpus) (a b : Nat) : List Verse :=
  c.verses.filter (fun v => a ≤ v.id && v.id ≤ b)

/-- The reference string built by `get_verse_range` (`routes/bible.py`) and
`get_verse_text_and_reference` (`routes/analysis.py`):
`"Book C:V"` when the two ids coincide, else `"Book C:V1-V2"` from the start
verse's chapter and book.  `none` models a dangling foreign key (Python
would raise). -/
def rangeReference (c : Corpus) (sv ev : Verse) (sid eid : Nat) : Option Str :=
  match getChapterById c sv.chapter_id with
  | none => none
  | some ch =>
    match getBookById c ch.book_id with
    | none => none
    | some bk =>
      if sid == eid then
        some (bk.name ++ ' ' :: natChars ch.chapter_number ++
          ':' :: natChars sv.verse_number)
      else
        some (bk.name ++ ' ' :: natChars ch.chapter_number ++
          ':' :: natChars sv.verse_number ++ '-' :: natChars ev.verse_number)

/-- Outcome of the `GET /verses/range` route. -/
inductive RangeResult where
  | badRequest (msg : Str)
  | notFound (msg : Str)
  | fkError
  | ok (verses : List Verse) (combined : Str) (reference : Str)
deriving DecidableEq

/-- `get_verse_range` from `routes/bible.py`.  `start?`/`end?` are the query
parameters (absent = `none`); Python's `if not x` treats `0` like absent. -/
def get_verse_range (c : Corpus) (start? end? : Option Nat) : RangeResult :=
  match start? with
  | none => .badRequest ("start parameter is required".data)
  | some s =>
    if s == 0 then .badRequest ("start parameter is required".data)
    else
      let e := match end? with
        | none => s
        | some x => if x == 0 then s else x
      match getVerse c s, getVerse c e with
      | some sv, some ev =>
        let vs := versesInIdRange c s e
        let combined := joinCh ' ' (vs.map (·.text))
        match rangeReference c sv ev s e with
        | none => .fkError
        | some ref => .ok vs combined ref
      | _, _ => .notFound ("One or more verses not found".data)

/-! ### Analysis cache (`routes/analysis.py`, `models.py`) -/

/-- `TheologicalPerspective` from `ai_client.py`. -/
inductive Perspective where
  | catholic
  | eastern_orthodox
  | oriental_orthodox
  | church_of_the_east
  | baptist
  | anglican
  | methodist
  | pentecostal
  | lutheran
  | presbyterian
  | puritan
  | dutch_reformed
  | moravian
deriving DecidableEq

/-- The stored value for one perspective key: `{'response_text': ...,
'cross_references': [...]}` where the cross-reference dicts are kept as
opaque serialized blobs. -/
structure PerspectiveRecord where
  response_text : Str
  cross_references : List Str
deriving DecidableEq

/-- A JSON dict of perspectives: association list with Python dict
semantics (insertion order, unique keys when built by the code). -/
abbrev PerspectiveDict := List (Perspective × PerspectiveRecord)

/-- `d[key]` read on a Python dict (first binding of the key). -/
def lookupKey : PerspectiveDict → Perspective → Option PerspectiveRecord
  | [], _ => none
  | kv :: d, k => if kv.1 = k then some kv.2 else lookupKey d k

/-- `key in d`. -/
def hasKey (d : PerspectiveDict) (k : Perspective) : Bool :=
  (lookupKey d k).isSome

/-- `d[k] = v` on a Python dict: overwrite in place when the key exists,
otherwise append. -/
def upsertKey (d : PerspectiveDict) (k : Perspective) (v : PerspectiveRecord) :
    PerspectiveDict :=
  if hasKey d k then d.map (fun p => if p.1 = k then (k, v) else p)
  else d ++ [(k, v)]

/-- Python `d.update(new)`. -/
def dictUpdate (d new : PerspectiveDict) : PerspectiveDict :=
  new.foldl (fun acc kv => upsertKey acc kv.1 kv.2) d

/-- `VerseSummary` row from `models.py`. -/
structure VerseSummary where
  verse_range_start : Nat
  verse_range_end : Nat
  selected_text_hash : Str
  perspectives : PerspectiveDict
  cross_references : List Str
deriving DecidableEq

/-- The cache-key row predicate of
`VerseSummary.query.filter_by(verse_range_start=s, verse_range_end=e,
selected_text_hash=h)`. -/
def summaryKeyMatch (s e : Nat) (thash : Str) (vs : VerseSummary) : Bool :=
  vs.verse_range_start == s && vs.verse_range_end == e &&
    vs.selected_text_hash == thash

/-- `... .first()` on the filtered `verse_summaries` table. -/
def findSummary (db : List VerseSummary) (s e : Nat) (thash : Str) :
    Option VerseSummary :=
  db.find? (summaryKeyMatch s e thash)

/-- Replace the first element satisfying `p` (SQLAlchemy mutates the loaded
row object in place; the table keeps its position). -/
def replaceFirst {α : Type} (p : α → Bool) (x : α) : List α → List α
  | [] => []
  | y :: ys => if p y then x :: ys else y :: replaceFirst p x ys

/-- The cache-hit filter of `generate_summary`: for each requested
perspective present in the cached entry, copy its record into the response
dict (Python dict assignment in request order). -/
def filterCached (cached : PerspectiveDict) (requested : List Perspective) :
    PerspectiveDict :=
  requested.foldl
    (fun acc p =>
      match lookupKey cached p with
      | some v => upsertKey acc p v
      | none => acc) []

/-- The save/update block at the end of `generate_summary`: create the
cache entry when absent; otherwise `dict.update` the stored perspectives
and extend the aggregate cross-reference list of the first matching row. -/
def mergeSummary (db : List VerseSummary) (s e : Nat) (thash : Str)
    (pd : PerspectiveDict) (refs : List Str) : List VerseSummary :=
  match findSummary db s e thash with
  | none => db ++ [VerseSummary.mk s e thash pd refs]
  | some cs =>
    replaceFirst (summaryKeyMatch s e thash)
      { cs with perspectives := dictUpdate cs.perspectives pd,
                cross_references := cs.cross_references ++ refs } db

/-- The HTTP-level payload of `generate_summary` that the claims speak
about: the perspectives dict and the `cached` flag. -/
structure SummaryResponse where
  perspectives : PerspectiveDict
  cached : Bool
deriving DecidableEq

/-- One whole run of the cache logic of `generate_summary`: the response,
the Analyzer invocation (the perspective list passed to
`gemini_client.generate_verse_summary`, or `none` if it was never called),
and the resulting `verse_summaries` table. -/
structure SummaryStep where
  response : SummaryResponse
  invoked : Option (List Perspective)
  db : List VerseSummary
deriving DecidableEq

/-- The cache portion of `generate_summary` (`routes/analysis.py` after
validation): look the entry up; if it exists and holds at least one
requested perspective, answer from cache; otherwise invoke the Analyzer
(`gen`, already converted to storage format) for all requested
perspectives and save/update the entry. -/
def generate_summary_cache (db : List VerseSummary) (s e : Nat) (thash : Str)
    (requested : List Perspective)
    (gen : List Perspective → PerspectiveDict × List Str) : SummaryStep :=
  match findSummary db s e thash with
  | some cs =>
    let filtered := filterCached cs.perspectives requested
    if filtered.isEmpty then
      let pr := gen requested
      SummaryStep.mk (SummaryResponse.mk pr.1 false) (some requested)
        (mergeSummary db s e thash pr.1 pr.2)
    else SummaryStep.mk (SummaryResponse.mk filtered true) none db
  | none =>
    let pr := gen requested
    SummaryStep.mk (SummaryResponse.mk pr.1 false) (some requested)
      (mergeSummary db s e thash pr.1 pr.2)

/-! ### Reference resolver (`routes/bible.py`) -/

/-- Python `str.title()` modeled character-wise: a letter is uppercased
when the previous character is not alphabetic, lowercased otherwise. -/
def titleAux : Str → Bool → Str
  | [], _ => []
  | ch :: cs, prevAlpha =>
    (if prevAlpha then ch.toLower else ch.toUpper) :: titleAux cs ch.isAlpha

/-- `book_slug.replace('-', ' ').title()` from `resolve_book_slug`. -/
def slugPotentialName (slug : Str) : Str :=
  titleAux (slug.map (fun ch => if ch = '-' then ' ' else ch)) false

/-- The exact-match test `Book.name.ilike(potential_name)` (a SQL `ilike`
without wildcards is case-insensitive equality). -/
def bookExactMatch (potential : Str) (b : Book) : Bool :=
  lowerS b.name == lowerS potential

/-- The combined partial filter of `resolve_book_slug`:
`name ilike %p%  OR  abbreviation ilike %p%  OR  name ilike p%`. -/
def bookPartialMatch (potential : Str) (b : Book) : Bool :=
  isSubstring (lowerS potential) (lowerS b.name) ||
  isSubstring (lowerS potential) (lowerS b.abbreviation) ||
  (lowerS potential).isPrefixOf (lowerS b.name)

/-- `resolve_book_slug` from `routes/bible.py`: case-insensitive exact name
match first; otherwise one combined partial query, taking `books[0]` of
whatever the filter returns in table order. -/
def resolve_book_slug (c : Corpus) (slug : Str) : Option Book :=
  match c.books.find? (bookExactMatch (slugPotentialName slug)) with
  | some b => some b
  | none => (c.books.filter (bookPartialMatch (slugPotentialName slug))).head?

/-- The book lookup of `get_by_reference`:
`or_(Book.name.ilike(book_name), Book.abbreviation.ilike(book_name))`. -/
def bookRefMatch (bn : Str) (b : Book) : Bool :=
  lowerS b.name == lowerS bn || lowerS b.abbreviation == lowerS bn

/-- The verse query of `get_by_reference`: chapter plus inclusive
verse-number bounds, ordered by verse number (the stored order under the
corpus ordering invariant). -/
def verseRangeQuery (c : Corpus) (chid v1 v2 : Nat) : List Verse :=
  c.verses.filter (fun v =>
    v.chapter_id == chid && decide (v1 ≤ v.verse_number) &&
      decide (v.verse_number ≤ v2))

/-- The verse-token parsing of `get_by_reference`: `"V1-V2"` via
`split('-', 1)`, `"V"` interpreted as `start == end`; no swap. -/
def parseVersePart (versePart : Str) : Option (Nat × Nat) :=
  if '-' ∈ versePart then
    match parseNat (splitFirstCh '-' versePart).1,
          parseNat (splitFirstCh '-' versePart).2 with
    | some v1, some v2 => some (v1, v2)
    | _, _ => none
  else (parseNat versePart).map (fun v => (v, v))

/-- Outcome of `GET /reference`. -/
inductive RefResult where
  | badRequest
  | bookNotFound
  | chapterNotFound
  | versesNotFound
  | ok (verses : List Verse) (combined : Str)
deriving DecidableEq

/-- `get_by_reference` from `routes/bible.py`, in source order: split on
spaces (book words before the final `chapter:verse` token), require a
colon, parse the chapter number, resolve the book (name or abbreviation,
`ilike` without wildcards), resolve the chapter, parse the verse part,
query the verses, and fail on an empty result. -/
def get_by_reference (c : Corpus) (ref : Str) : RefResult :=
  if (splitCh ' ' ref).length < 2 then .badRequest
  else if ':' ∈ (splitCh ' ' ref).getLastD [] then
    match parseNat (splitFirstCh ':' ((splitCh ' ' ref).getLastD [])).1 with
    | none => .badRequest
    | some chn =>
      match c.books.find? (bookRefMatch (joinCh ' ' (splitCh ' ' ref).dropLast)) with
      | none => .bookNotFound
      | some bk =>
        match c.chapters.find? (fun ch =>
            ch.book_id == bk.id && ch.chapter_number == chn) with
        | none => .chapterNotFound
        | some ch =>
          match parseVersePart (splitFirstCh ':' ((splitCh ' ' ref).getLastD [])).2 with
          | none => .badRequest
          | some vv =>
            if (verseRangeQuery c ch.id vv.1 vv.2).isEmpty then .versesNotFound
            else .ok (verseRangeQuery c ch.id vv.1 vv.2)
              (joinCh ' ' ((verseRangeQuery c ch.id vv.1 vv.2).map (·.text)))
  else .badRequest

/-- The display side of the round trip: `get_verse_range`'s reference
string for the ids (a, b). -/
def displayRef (c : Corpus) (a b : Nat) : Option Str :=
  match getVerse c a, getVerse c b with
  | some sv, some ev => rangeReference c sv ev a b
  | _, _ => none

/-! ### Prophecy import and generation pipeline
(`import_prophecies.py`, `generate_prophecies.py`) -/

/-- The `ProphecyCategory` enumeration values (`models.py`). -/
def prophecyCategories : List Str :=
  ["birth_circumstances", "genealogy_lineage", "geographic_locations",
   "ministry_mission", "character_attributes", "death_crucifixion",
   "resurrection_exaltation", "second_coming", "kingdom_reign",
   "priestly_work", "prophetic_office", "divine_nature"].map String.data

/-- The `FulfillmentType` enumeration values (`models.py`). -/
def fulfillmentTypes : List Str :=
  ["direct", "typological", "thematic", "progressive",
   "inaugurated"].map String.data

/-- `get_verse_id` from `import_prophecies.py`: resolve a (book name,
chapter number, verse number) triple through the joined tables; `none`
models the raised `ValueError`. -/
def get_verse_id (c : Corpus) (bn : Str) (chn vn : Nat) : Option Nat :=
  (c.verses.find? (fun v =>
    v.verse_number == vn &&
      (match getChapterById c v.chapter_id with
       | none => false
       | some ch =>
         ch.chapter_number == chn &&
           (match getBookById c ch.book_id with
            | none => false
            | some b => b.name == bn)))).map (·.id)

/-- A fulfillment reference as it appears in the candidate JSON. -/
structure FulfillRefIn where
  book_name : Str
  chapter : Nat
  verse_start : Nat
  verse_end : Nat
  fulfillment_type : Str
deriving DecidableEq

/-- A fulfillment reference after id resolution (the `converted_ref` dict
built by `convert_fulfillment_references_to_verse_ids`). -/
structure FulfillRefOut where
  book_name : Str
  chapter : Nat
  verse_start : Nat
  verse_end : Nat
  verse_start_id : Nat
  verse_end_id : Nat
  fulfillment_type : Str
deriving DecidableEq

/-- The `prophecy_reference` dict of a candidate. -/
structure ProphecyRef where
  book_name : Str
  chapter : Nat
  verse_start : Nat
  verse_end : Nat
deriving DecidableEq

/-- A candidate prophecy record from `messianic_prophecies.json` (both the
generation-side dataset entry and the import-side input). -/
structure ProphecyIn where
  claim : Str
  category : Str
  prophecy_reference : ProphecyRef
  fulfillment_references : List FulfillRefIn
  fulfillment_explanation : Str
deriving DecidableEq

/-- A `MessianicProphecy` row (`models.py`, fields relevant to the claims). -/
structure ProphecyRec where
  claim : Str
  category : Str
  prophecy_verse_start : Nat
  prophecy_verse_end : Nat
  fulfillment_references : List FulfillRefOut
  fulfillment_explanation : Str
deriving DecidableEq

/-- `convert_fulfillment_references_to_verse_ids` from
`import_prophecies.py`: each reference whose start or end fails to resolve
is skipped with a warning; the rest are converted. -/
def convert_fulfillment_references_to_verse_ids (c : Corpus)
    (refs : List FulfillRefIn) : List FulfillRefOut :=
  refs.filterMap (fun r =>
    match get_verse_id c r.book_name r.chapter r.verse_start,
          get_verse_id c r.book_name r.chapter r.verse_end with
    | some sid, some eid =>
      some (FulfillRefOut.mk r.book_name r.chapter r.verse_start r.verse_end
        sid eid r.fulfillment_type)
    | _, _ => none)

/-- `import_prophecy` from `import_prophecies.py`: resolve the prophecy
range (a failure rejects the candidate), convert fulfillment references
(individual failures are skipped inside the helper), then build the row;
an invalid category raises in `ProphecyCategory(...)` and is caught,
rejecting the candidate.  `none` models the caught exception path. -/
def import_prophecy (c : Corpus) (p : ProphecyIn) : Option ProphecyRec :=
  match get_verse_id c p.prophecy_reference.book_name p.prophecy_reference.chapter
      p.prophecy_reference.verse_start with
  | none => none
  | some sid =>
    match get_verse_id c p.prophecy_reference.book_name p.prophecy_reference.chapter
        p.prophecy_reference.verse_end with
    | none => none
    | some eid =>
      let refs := convert_fulfillment_references_to_verse_ids c
        p.fulfillment_references
      if p.category ∈ prophecyCategories then
        some (ProphecyRec.mk p.claim p.category sid eid refs
          p.fulfillment_explanation)
      else none

/-- One iteration of the candidate loop in `main` of
`import_prophecies.py`: a failed candidate is skipped (the run continues),
a successful one is appended to the session. -/
def importStep (c : Corpus) (acc : List ProphecyRec) (p : ProphecyIn) :
    List ProphecyRec :=
  match import_prophecy c p with
  | some r => acc ++ [r]
  | none => acc

/-- The candidate loop of `main` in `import_prophecies.py` starting from an
already-accumulated session. -/
def importPipelineFrom (c : Corpus) (acc : List ProphecyRec)
    (cands : List ProphecyIn) : List ProphecyRec :=
  cands.foldl (importStep c) acc

/-- `validate_verse_reference` from `generate_prophecies.py` (the same SQL
join as `get_verse_id`, returning a Boolean). -/
def validate_verse_reference (c : Corpus) (bn : Str) (chn vn : Nat) : Bool :=
  (get_verse_id c bn chn vn).isSome

/-- `validate_prophecy` from `generate_prophecies.py`.  The
required-fields check is always satisfied in the typed model; category,
prophecy range (end checked only when it differs from start), and every
fulfillment reference's type and start are validated. -/
def validate_prophecy (c : Corpus) (p : ProphecyIn) : Bool :=
  prophecyCategories.contains p.category &&
  validate_verse_reference c p.prophecy_reference.book_name
    p.prophecy_reference.chapter p.prophecy_reference.verse_start &&
  (p.prophecy_reference.verse_end == p.prophecy_reference.verse_start ||
    validate_verse_reference c p.prophecy_reference.book_name
      p.prophecy_reference.chapter p.prophecy_reference.verse_end) &&
  p.fulfillment_references.all (fun fr =>
    fulfillmentTypes.contains fr.fulfillment_type &&
    validate_verse_reference c fr.book_name fr.chapter fr.verse_start)

/-- The f-string reference key
`f"{book}_{chapter}_{verse_start}_{verse_end}"` used by
`is_duplicate_prophecy`. -/
def refKey (r : ProphecyRef) : Str :=
  r.book_name ++ '_' :: natChars r.chapter ++ '_' :: natChars r.verse_start ++
    '_' :: natChars r.verse_end

/-- `is_duplicate_prophecy` from `generate_prophecies.py`: same reference
key and same case-folded 50-character claim head. -/
def is_duplicate_prophecy (newP : ProphecyIn) (existing : List ProphecyIn) :
    Bool :=
  existing.any (fun e =>
    refKey newP.prophecy_reference == refKey e.prophecy_reference &&
    (lowerS newP.claim).take 50 == (lowerS e.claim).take 50)

/-- The dedup identity of a candidate: reference key plus normalized claim
head (used to state C4; the code compares the two components). -/
def dedupKey (p : ProphecyIn) : Str × Str :=
  (refKey p.prophecy_reference, (lowerS p.claim).take 50)

/-- One iteration of the accept loop in `main` of
`generate_prophecies.py`: validated non-duplicates are appended to the
running dataset. -/
def genStep (c : Corpus) (acc : List ProphecyIn) (p : ProphecyIn) :
    List ProphecyIn :=
  if validate_prophecy c p && !(is_duplicate_prophecy p acc) then acc ++ [p]
  else acc

/-- The accept loop of `main` in `generate_prophecies.py` over the dataset
loaded at pipeline start (`existing`). -/
def processCandidates (c : Corpus) (existing : List ProphecyIn)
    (cands : List ProphecyIn) : List ProphecyIn :=
  cands.foldl (genStep c) existing

/-! ### Fulfillment graph queries (`routes/prophecy.py`) -/

/-- A JSON string literal (book names and type tags need no escaping). -/
def jsonStr (s : Str) : Str := '"' :: s ++ ['"']

/-- One `"key": value` JSON member with the serializer's `': '` separator. -/
def jsonField (k : Str) (v : Str) : Str := jsonStr k ++ ':' :: ' ' :: v

/-- Join with a multi-character separator (the `', '` between JSON members
and array elements). -/
def joinStr (sep : Str) : List Str → Str
  | [] => []
  | [w] => w
  | w :: ws => w ++ sep ++ joinStr sep ws

/-- The JSON members of one stored fulfillment reference, in the insertion
order of the `converted_ref` dict. -/
def fulfillRefFields (r : FulfillRefOut) : List Str :=
  [jsonField ("book_name".data) (jsonStr r.book_name),
   jsonField ("chapter".data) (natChars r.chapter),
   jsonField ("verse_start".data) (natChars r.verse_start),
   jsonField ("verse_end".data) (natChars r.verse_end),
   jsonField ("verse_start_id".data) (natChars r.verse_start_id),
   jsonField ("verse_end_id".data) (natChars r.verse_end_id),
   jsonField ("fulfillment_type".data) (jsonStr r.fulfillment_type)]

/-- JSON text of one stored fulfillment reference. -/
def serializeFulfillRef (r : FulfillRefOut) : Str :=
  '\x7b' :: joinStr (", ".data) (fulfillRefFields r) ++ ['\x7d']

/-- `mp.fulfillment_references::text`: the JSON array as stored. -/
def serializeFulfillRefs (refs : List FulfillRefOut) : Str :=
  '[' :: joinStr (", ".data) (refs.map serializeFulfillRef) ++ [']']

/-- The body of the LIKE pattern `f'%"verse_start_id": {verse_id}%'` from
`get_chapter_prophecies` (the surrounding `%` make it a substring test). -/
def fulfillLikePattern (vid : Nat) : Str :=
  jsonField ("verse_start_id".data) (natChars vid)

/-- The raw-SQL LIKE scan of `get_chapter_prophecies` for one verse id. -/
def fulfillLikeRows (props : List ProphecyRec) (vid : Nat) : List ProphecyRec :=
  props.filter (fun mp =>
    isSubstring (fulfillLikePattern vid)
      (serializeFulfillRefs mp.fulfillment_references))

/-- The accumulation loop over the chapter's verse ids: every row the LIKE
scan finds is re-fetched by primary key (the same record) and appended
unless already collected. -/
def fulfillProphecyLoop (props : List ProphecyRec) (verse_ids : List Nat) :
    List ProphecyRec :=
  verse_ids.foldl (fun acc vid =>
    (fulfillLikeRows props vid).foldl
      (fun acc2 mp => if mp ∈ acc2 then acc2 else acc2 ++ [mp]) acc) []

/-- `verse_ids = [v.id for v in chapter.verses]`. -/
def chapterVerseIds (c : Corpus) (chid : Nat) : List Nat :=
  (c.verses.filter (fun v => v.chapter_id == chid)).map (·.id)

/-- The `prophecy_verses` ORM query of `get_chapter_prophecies`:
prophecies whose anchored range start or end id is in the id set. -/
def prophecyRangesTouching (props : List ProphecyRec) (verse_ids : List Nat) :
    List ProphecyRec :=
  props.filter (fun mp =>
    decide (mp.prophecy_verse_start ∈ verse_ids) ||
      decide (mp.prophecy_verse_end ∈ verse_ids))

/-- The (prophecy, reference) pairs materialized by the "process
fulfillment verses" loop of `get_chapter_prophecies`: for each collected
prophecy and each embedded reference, keep the pair when the resolved
start id is among the chapter's verse ids and that verse lies in the
chapter. -/
def chapterFulfillPairs (c : Corpus) (chid : Nat) (props : List ProphecyRec) :
    List (ProphecyRec × FulfillRefOut) :=
  (fulfillProphecyLoop props (chapterVerseIds c chid)).flatMap (fun mp =>
    mp.fulfillment_references.filterMap (fun r =>
      if r.verse_start_id ∈ chapterVerseIds c chid then
        match getVerse c r.verse_start_id with
        | some v => if v.chapter_id = chid then some (mp, r) else none
        | none => none
      else none))

/-- A prophecy record anchored at Genesis 1:1 (id 1) fulfilled at
Matthew 1:1 (id 3) of `importCorpus`. -/
def prophecyRec1 : ProphecyRec :=
  ProphecyRec.mk ("He shall crush the serpent".data)
    ("birth_circumstances".data) 1 1
    [FulfillRefOut.mk ("Matthew".data) 1 1 1 3 3 ("direct".data)]
    ("expl".data)

/-! ### Concrete cache fixtures used by counterexamples and witnesses -/

/-- A cached `catholic` analysis record. -/
def recCatholic : PerspectiveRecord := PerspectiveRecord.mk ("cat-text".data) []

/-- A freshly generated `baptist` analysis record. -/
def recBaptist : PerspectiveRecord := PerspectiveRecord.mk ("bap-text".data) []

/-- A cache holding exactly one entry for range (1,1) with only the
`catholic` perspective stored. -/
def exampleCacheDb : List VerseSummary :=
  [VerseSummary.mk 1 1 ("h1".data) [(Perspective.catholic, recCatholic)] []]

/-- A stand-in Analyzer returning one record per requested perspective. -/
def exampleGen : List Perspective → PerspectiveDict × List Str :=
  fun ps => (ps.map (fun p => (p, recBaptist)), [])

/-- A two-book corpus for the import claims: Genesis 1:1-2, Matthew 1:1. -/
def importCorpus : Corpus :=
  Corpus.mk
    [Book.mk 1 ("Genesis".data) ("Gen".data) 1,
     Book.mk 2 ("Matthew".data) ("Matt".data) 40]
    [Chapter.mk 1 1 1, Chapter.mk 2 2 1]
    [Verse.mk 1 1 1 ("In the beginning".data),
     Verse.mk 2 1 2 ("And the earth".data),
     Verse.mk 3 2 1 ("The book of the generation".data)]

/-- A candidate whose prophecy range resolves but whose only fulfillment
reference points at a nonexistent chapter (Matthew 99). -/
def danglingCandidate : ProphecyIn :=
  ProphecyIn.mk ("He shall crush the serpent".data)
    ("birth_circumstances".data)
    (ProphecyRef.mk ("Genesis".data) 1 1 1)
    [FulfillRefIn.mk ("Matthew".data) 99 1 1 ("direct".data)]
    ("expl".data)

/-- A candidate whose prophecy range itself fails to resolve (no Exodus in
the corpus). -/
def badRangeCandidate : ProphecyIn :=
  ProphecyIn.mk ("Out of Egypt".data) ("geographic_locations".data)
    (ProphecyRef.mk ("Exodus".data) 1 1 1)
    [FulfillRefIn.mk ("Matthew".data) 1 1 1 ("direct".data)]
    ("expl".data)

/-- A fully valid generation candidate anchored at Genesis 1:1. -/
def genCand1 : ProphecyIn :=
  ProphecyIn.mk ("He shall crush the serpent".data)
    ("birth_circumstances".data)
    (ProphecyRef.mk ("Genesis".data) 1 1 1)
    [FulfillRefIn.mk ("Matthew".data) 1 1 1 ("direct".data)]
    ("expl".data)

/-- The same candidate with a case-variant claim: identical dedup key. -/
def genCand2 : ProphecyIn :=
  ProphecyIn.mk ("HE SHALL CRUSH THE SERPENT".data)
    ("birth_circumstances".data)
    (ProphecyRef.mk ("Genesis".data) 1 1 1)
    [FulfillRefIn.mk ("Matthew".data) 1 1 1 ("direct".data)]
    ("expl".data)

/-- Same verse range, materially different claim: distinct dedup key. -/
def genCand3 : ProphecyIn :=
  ProphecyIn.mk ("A virgin shall conceive".data)
    ("birth_circumstances".data)
    (ProphecyRef.mk ("Genesis".data) 1 1 1)
    [FulfillRefIn.mk ("Matthew".data) 1 1 1 ("direct".data)]
    ("expl".data)

/-- One book with two chapters for the round-trip claims:
Genesis 1:1 (id 1), 1:2 (id 2), 2:1 (id 3). -/
def roundtripCorpus : Corpus :=
  Corpus.mk
    [Book.mk 1 ("Genesis".data) ("Gen".data) 1]
    [Chapter.mk 1 1 1, Chapter.mk 2 1 2]
    [Verse.mk 1 1 1 ("In the beginning".data),
     Verse.mk 2 1 2 ("And the earth".data),
     Verse.mk 3 2 1 ("Thus the heavens".data)]

/-- Two books in canonical order where the query "ze" matches Ezekiel by
substring only and Zephaniah by both head-of-name and substring. -/
def c7Corpus : Corpus :=
  Corpus.mk
    [Book.mk 1 ("Ezekiel".data) ("Ezek".data) 26,
     Book.mk 2 ("Zephaniah".data) ("Zeph".data) 36]
    [] []

/-! ### Basic lemmas about the string primitives -/

theorem splitCh_ne_nil (sep : Char) (s : Str) : splitCh sep s ≠ [] := by
  induction s with
  | nil => simp [splitCh]
  | cons c cs ih =>
    simp only [splitCh]
    rcases h : splitCh sep cs with _ | ⟨w, ws⟩
    · exact absurd h ih
    · by_cases hc : c = sep <;> simp [hc]

theorem joinCh_splitCh (sep : Char) (s : Str) : joinCh sep (splitCh sep s) = s := by
  induction s with
  | nil => simp [splitCh, joinCh]
  | cons c cs ih =>
    simp only [splitCh]
    rcases h : splitCh sep cs with _ | ⟨w, ws⟩
    · exact absurd h (splitCh_ne_nil sep cs)
    · rw [h] at ih
      by_cases hc : c = sep
      · subst hc
        simp only [if_pos rfl, joinCh]
        simpa using ih
      · simp only [if_neg hc]
        cases ws with
        | nil => simp [joinCh] at ih ⊢; simp [ih]
        | cons w' ws' => simp [joinCh] at ih ⊢; simp [ih]

theorem splitCh_append_sep (sep : Char) (u v : Str) :
    splitCh sep (u ++ sep :: v) = splitCh sep u ++ splitCh sep v := by
  induction u with
  | nil =>
    simp only [List.nil_append, splitCh]
    rcases h : splitCh sep v with _ | ⟨w, ws⟩
    · exact absurd h (splitCh_ne_nil sep v)
    · simp
  | cons c cs ih =>
    simp only [List.cons_append, splitCh, List.append_eq]
    rw [ih]
    rcases h : splitCh sep cs with _ | ⟨w, ws⟩
    · exact absurd h (splitCh_ne_nil sep cs)
    · rcases h2 : splitCh sep v with _ | ⟨w2, ws2⟩
      · exact absurd h2 (splitCh_ne_nil sep v)
      · by_cases hc : c = sep <;> simp [hc]

theorem splitCh_no_sep (sep : Char) (v : Str) (h : sep ∉ v) :
    splitCh sep v = [v] := by
  induction v with
  | nil => simp [splitCh]
  | cons c cs ih =>
    simp only [List.mem_cons, not_or] at h
    simp only [splitCh, ih h.2]
    rw [if_neg (show ¬ c = sep from fun hc => h.1 hc.symm)]

theorem takeWhile_append_sep (sep : Char) (u v : Str) (h : sep ∉ u) :
    (u ++ sep :: v).takeWhile (fun c => c != sep) = u := by
  induction u with
  | nil => simp
  | cons c cs ih =>
    simp only [List.mem_cons, not_or] at h
    have hc : c ≠ sep := fun e => h.1 e.symm
    simp [List.takeWhile_cons, hc, ih h.2]

theorem dropWhile_append_sep (sep : Char) (u v : Str) (h : sep ∉ u) :
    (u ++ sep :: v).dropWhile (fun c => c != sep) = sep :: v := by
  induction u with
  | nil => simp
  | cons c cs ih =>
    simp only [List.mem_cons, not_or] at h
    have hc : c ≠ sep := fun e => h.1 e.symm
    simp [List.dropWhile_cons, hc, ih h.2]

theorem splitFirstCh_eq (sep : Char) (u v : Str) (h : sep ∉ u) :
    splitFirstCh sep (u ++ sep :: v) = (u, v) := by
  unfold splitFirstCh
  rw [takeWhile_append_sep sep u v h, dropWhile_append_sep sep u v h]
  simp

theorem digitChar_toNat_sub (d : Nat) (h : d < 10) :
    (Nat.digitChar d).toNat - 48 = d := by
  interval_cases d <;> decide

theorem digitChar_isDigit (d : Nat) (h : d < 10) :
    (Nat.digitChar d).isDigit = true := by
  interval_cases d <;> decide

theorem natCharsAux_congr (fuel fuel' n : Nat) (h : n < fuel) (h' : n < fuel') :
    natCharsAux fuel n = natCharsAux fuel' n := by
  induction fuel generalizing fuel' n with
  | zero => omega
  | succ f ih =>
    cases fuel' with
    | zero => omega
    | succ f' =>
      simp only [natCharsAux]
      by_cases h10 : n < 10
      · simp [h10]
      · rw [if_neg h10, if_neg h10, ih f' (n / 10) (by omega) (by omega)]

theorem natCharsAux_all_digits (fuel n : Nat) (h : n < fuel) :
    (natCharsAux fuel n).all (·.isDigit) = true := by
  induction fuel generalizing n with
  | zero => omega
  | succ f ih =>
    simp only [natCharsAux]
    by_cases h10 : n < 10
    · simp [h10, digitChar_isDigit n h10]
    · rw [if_neg h10, List.all_append]
      have h1 := ih (n / 10) (by omega)
      have h2 := digitChar_isDigit (n % 10) (Nat.mod_lt _ (by omega))
      simp only [h1, Bool.true_and, List.all_cons, List.all_nil, h2, Bool.and_self]

theorem natChars_all_digits (n : Nat) : (natChars n).all (·.isDigit) = true :=
  natCharsAux_all_digits (n + 1) n (by omega)

theorem natCharsAux_ne_nil (fuel n : Nat) (h : n < fuel) :
    natCharsAux fuel n ≠ [] := by
  cases fuel with
  | zero => omega
  | succ f => simp only [natCharsAux]; split <;> simp

theorem natChars_ne_nil (n : Nat) : natChars n ≠ [] :=
  natCharsAux_ne_nil (n + 1) n (by omega)

theorem parseNat_natChars (n : Nat) : parseNat (natChars n) = some n := by
  suffices h : ∀ fuel m acc, m < fuel →
      (natCharsAux fuel m).foldl (fun acc c => acc * 10 + (c.toNat - 48)) acc
      = acc * 10 ^ (natCharsAux fuel m).length + m by
    unfold parseNat
    rw [if_pos ⟨natChars_ne_nil n, natChars_all_digits n⟩]
    have := h (n + 1) n 0 (by omega)
    unfold natChars
    simp only [Nat.zero_mul, Nat.zero_add] at this
    simp [this]
  intro fuel
  induction fuel with
  | zero => omega
  | succ f ih =>
    intro m acc hm
    simp only [natCharsAux]
    by_cases h : m < 10
    · simp only [if_pos h, List.foldl_cons, List.foldl_nil, List.length_cons,
        List.length_nil, Nat.zero_add, pow_one, digitChar_toNat_sub m h]
    · rw [if_neg h, List.foldl_append]
      rw [ih (m / 10) acc (by omega)]
      simp only [List.foldl_cons, List.foldl_nil, List.length_append, List.length_cons,
        List.length_nil, digitChar_toNat_sub (m % 10) (Nat.mod_lt _ (by omega)),
        Nat.zero_add]
      generalize (natCharsAux f (m / 10)).length = L
      have hm10 : m / 10 * 10 + m % 10 = m := by omega
      calc (acc * 10 ^ L + m / 10) * 10 + m % 10
          = acc * (10 ^ L * 10) + (m / 10 * 10 + m % 10) := by ring
        _ = acc * 10 ^ (L + 1) + m := by rw [hm10, pow_succ]

/-- Claim C10: for `GET /verses/range`, when both the start and end ids
exist but `start > end`, the route succeeds with an empty verse list and
empty combined text (no swap, no error); and when the end id is omitted the
range defaults to the single start verse. -/
theorem C10_reversed_range (c : Corpus) (s e : Nat) (sv ev : Verse) (ref : Str)
    (hs : getVerse c s = some sv) (he : getVerse c e = some ev)
    (hgt : e < s) (hs0 : s ≠ 0) (he0 : e ≠ 0)
    (href : rangeReference c sv ev s e = some ref) :
    get_verse_range c (some s) (some e) = .ok [] [] ref ∧
    get_verse_range c (some s) none = get_verse_range c (some s) (some s) := by
  constructor
  · have hvs : versesInIdRange c s e = [] := by
      rw [versesInIdRange, List.filter_eq_nil_iff]
      intro v _
      simp only [Bool.and_eq_true, decide_eq_true_eq, not_and]
      omega
    simp only [get_verse_range, beq_iff_eq, if_neg hs0, if_neg he0, hs, he, hvs,
      href, joinCh, List.map_nil]
  · simp only [get_verse_range, beq_iff_eq, if_neg hs0]

/-- Witness for C10 on a two-verse corpus: ids 2 and 1 reversed. -/
theorem C10_witness :
    get_verse_range
      (Corpus.mk [Book.mk 1 "Genesis".data "Gen".data 1] [Chapter.mk 1 1 1]
        [Verse.mk 1 1 1 "In the beginning".data, Verse.mk 2 1 2 "And the earth".data])
      (some 2) (some 1)
      = .ok [] [] ("Genesis 1:2-1".data) := by
  have h := C10_reversed_range
    (Corpus.mk [Book.mk 1 "Genesis".data "Gen".data 1] [Chapter.mk 1 1 1]
      [Verse.mk 1 1 1 "In the beginning".data, Verse.mk 2 1 2 "And the earth".data])
    2 1 (Verse.mk 2 1 2 "And the earth".data) (Verse.mk 1 1 1 "In the beginning".data)
    ("Genesis 1:2-1".data)
    (by decide) (by decide) (by decide) (by decide) (by decide) (by decide)
  exact h.1

/-! ### Dictionary lemmas for the analysis cache -/

theorem upsertKey_ne_nil (d : PerspectiveDict) (k : Perspective)
    (v : PerspectiveRecord) : upsertKey d k v ≠ [] := by
  unfold upsertKey
  split
  · rename_i h
    cases d with
    | nil => simp [hasKey, lookupKey] at h
    | cons a d' => simp
  · simp

theorem lookupKey_eq_none_iff (d : PerspectiveDict) (k : Perspective) :
    lookupKey d k = none ↔ hasKey d k = false := by
  unfold hasKey
  cases lookupKey d k <;> simp

theorem lookup_map_upd_self (d : PerspectiveDict) (k : Perspective)
    (v : PerspectiveRecord) (h : lookupKey d k ≠ none) :
    lookupKey (d.map (fun p => if p.1 = k then (k, v) else p)) k = some v := by
  induction d with
  | nil => simp [lookupKey] at h
  | cons a d' ih =>
    by_cases ha : a.1 = k
    · simp [lookupKey, ha]
    · simp only [lookupKey, if_neg ha] at h
      simp only [List.map_cons, if_neg ha, lookupKey, if_neg ha]
      exact ih h

theorem lookup_append_single_self (d : PerspectiveDict) (k : Perspective)
    (v : PerspectiveRecord) (h : lookupKey d k = none) :
    lookupKey (d ++ [(k, v)]) k = some v := by
  induction d with
  | nil => simp [lookupKey]
  | cons a d' ih =>
    by_cases ha : a.1 = k
    · simp [lookupKey, ha] at h
    · simp only [lookupKey, if_neg ha] at h
      simp only [List.cons_append, lookupKey, if_neg ha]
      exact ih h

theorem lookup_upsert_self (d : PerspectiveDict) (k : Perspective)
    (v : PerspectiveRecord) : lookupKey (upsertKey d k v) k = some v := by
  unfold upsertKey
  split
  · rename_i h
    refine lookup_map_upd_self d k v ?_
    unfold hasKey at h
    cases hl : lookupKey d k
    · rw [hl] at h; simp at h
    · simp
  · rename_i h
    refine lookup_append_single_self d k v ?_
    unfold hasKey at h
    cases hl : lookupKey d k
    · rfl
    · rw [hl] at h; simp at h

theorem lookup_map_upd_other (d : PerspectiveDict) (k k' : Perspective)
    (v : PerspectiveRecord) (hne : k' ≠ k) :
    lookupKey (d.map (fun p => if p.1 = k' then (k', v) else p)) k
      = lookupKey d k := by
  induction d with
  | nil => rfl
  | cons a d' ih =>
    by_cases ha : a.1 = k'
    · have hak : ¬ a.1 = k := by rw [ha]; exact hne
      simp only [List.map_cons, if_pos ha, lookupKey, if_neg hne, if_neg hak]
      exact ih
    · simp only [List.map_cons, if_neg ha, lookupKey]
      by_cases hak : a.1 = k
      · simp [hak]
      · simp only [if_neg hak]
        exact ih

theorem lookup_append_single_other (d : PerspectiveDict) (k k' : Perspective)
    (v : PerspectiveRecord) (hne : k' ≠ k) :
    lookupKey (d ++ [(k', v)]) k = lookupKey d k := by
  induction d with
  | nil => simp [lookupKey, hne]
  | cons a d' ih =>
    by_cases hak : a.1 = k
    · simp [lookupKey, hak]
    · simp only [List.cons_append, lookupKey, if_neg hak]
      exact ih

theorem lookup_upsert_other (d : PerspectiveDict) (k k' : Perspective)
    (v : PerspectiveRecord) (hne : k' ≠ k) :
    lookupKey (upsertKey d k' v) k = lookupKey d k := by
  unfold upsertKey
  split
  · exact lookup_map_upd_other d k k' v hne
  · exact lookup_append_single_other d k k' v hne

theorem hasKey_false_iff (d : PerspectiveDict) (k : Perspective) :
    hasKey d k = false ↔ k ∉ d.map Prod.fst := by
  induction d with
  | nil => simp [hasKey, lookupKey]
  | cons a d' ih =>
    unfold hasKey lookupKey
    unfold hasKey at ih
    by_cases ha : a.1 = k
    · simp [ha]
    · simp only [if_neg ha, List.map_cons, List.mem_cons, ih]
      constructor
      · intro h
        rintro (hh | hh)
        · exact ha hh.symm
        · exact h hh
      · intro h hh
        exact h (Or.inr hh)

theorem lookup_dictUpdate_of_absent (pd d : PerspectiveDict) (k : Perspective) :
    hasKey pd k = false → lookupKey (dictUpdate d pd) k = lookupKey d k := by
  induction pd generalizing d with
  | nil => intro _; rfl
  | cons kv pd' ih =>
    intro h
    unfold hasKey lookupKey at h
    by_cases hk : kv.1 = k
    · rw [if_pos hk] at h; simp at h
    · rw [if_neg hk] at h
      unfold dictUpdate at ih ⊢
      simp only [List.foldl_cons]
      rw [ih (upsertKey d kv.1 kv.2) h]
      exact lookup_upsert_other d k kv.1 kv.2 hk

theorem lookup_dictUpdate_of_present (pd d : PerspectiveDict) (k : Perspective) :
    (pd.map Prod.fst).Nodup → hasKey pd k = true →
    lookupKey (dictUpdate d pd) k = lookupKey pd k := by
  induction pd generalizing d with
  | nil => intro _ h; simp [hasKey, lookupKey] at h
  | cons kv pd' ih =>
    intro hnd h
    simp only [List.map_cons, List.nodup_cons] at hnd
    unfold dictUpdate
    simp only [List.foldl_cons]
    by_cases hk : kv.1 = k
    · have habs : hasKey pd' k = false := by
        rw [hasKey_false_iff]
        rw [hk] at hnd
        exact hnd.1
      have hstep := lookup_dictUpdate_of_absent pd' (upsertKey d kv.1 kv.2) k habs
      unfold dictUpdate at hstep
      rw [hstep]
      subst hk
      rw [lookup_upsert_self]
      simp [lookupKey]
    · have h' : hasKey pd' k = true := by
        unfold hasKey lookupKey at h
        rw [if_neg hk] at h
        exact h
      have hstep := ih (upsertKey d kv.1 kv.2) hnd.2 h'
      unfold dictUpdate at hstep
      rw [hstep]
      simp [lookupKey, if_neg hk]

theorem hasKey_upsert (d : PerspectiveDict) (k k' : Perspective)
    (v : PerspectiveRecord) :
    hasKey (upsertKey d k' v) k = (hasKey d k || (k' == k)) := by
  by_cases he : k' = k
  · subst he
    unfold hasKey
    rw [lookup_upsert_self]
    simp
  · unfold hasKey
    rw [lookup_upsert_other d k k' v he]
    simp [he]

theorem hasKey_dictUpdate (d pd : PerspectiveDict) (k : Perspective) :
    hasKey (dictUpdate d pd) k = (hasKey d k || hasKey pd k) := by
  induction pd generalizing d with
  | nil => simp [dictUpdate, hasKey, lookupKey]
  | cons kv pd' ih =>
    unfold dictUpdate at ih ⊢
    simp only [List.foldl_cons]
    rw [ih (upsertKey d kv.1 kv.2), hasKey_upsert]
    by_cases hk : kv.1 = k
    · have h1 : lookupKey (kv :: pd') k = some kv.2 := by
        show (if kv.1 = k then some kv.2 else lookupKey pd' k) = some kv.2
        rw [if_pos hk]
      have h2 : (kv.1 == k) = true := by simp [hk]
      unfold hasKey
      rw [h1, h2]
      simp
    · have h1 : lookupKey (kv :: pd') k = lookupKey pd' k := by
        show (if kv.1 = k then some kv.2 else lookupKey pd' k) = lookupKey pd' k
        rw [if_neg hk]
      have h2 : (kv.1 == k) = false := by simp [hk]
      unfold hasKey
      rw [h1, h2]
      simp [Bool.or_assoc]

theorem find?_replaceFirst {α : Type} (p : α → Bool) (x : α) (l : List α)
    (cs : α) (h : l.find? p = some cs) (hx : p x = true) :
    (replaceFirst p x l).find? p = some x := by
  induction l with
  | nil => simp at h
  | cons y ys ih =>
    unfold replaceFirst
    by_cases hy : p y
    · simp [List.find?_cons, hy, hx]
    · rw [if_neg hy]
      rw [List.find?_cons_of_neg _ hy] at h
      rw [List.find?_cons_of_neg _ hy]
      exact ih h

theorem filterCached_aux_lookup (cached : PerspectiveDict)
    (req : List Perspective) (acc : PerspectiveDict) (p : Perspective) :
    lookupKey (req.foldl (fun acc q =>
        match lookupKey cached q with
        | some v => upsertKey acc q v
        | none => acc) acc) p =
      if p ∈ req ∧ hasKey cached p = true then lookupKey cached p
      else lookupKey acc p := by
  induction req generalizing acc with
  | nil => simp
  | cons q req' ih =>
    simp only [List.foldl_cons]
    rw [ih]
    by_cases hmem : p ∈ req' ∧ hasKey cached p = true
    · rw [if_pos hmem, if_pos ⟨List.mem_cons_of_mem q hmem.1, hmem.2⟩]
    · rw [if_neg hmem]
      by_cases hqp : q = p
      · subst hqp
        by_cases hhit : hasKey cached q = true
        · have hsome : ∃ v, lookupKey cached q = some v := by
            rcases hv : lookupKey cached q with _ | v
            · rw [lookupKey_eq_none_iff] at hv
              rw [hv] at hhit
              exact absurd hhit (by simp)
            · exact ⟨v, rfl⟩
          rcases hsome with ⟨v, hv⟩
          rw [hv]
          rw [if_pos ⟨List.mem_cons_self q req', hhit⟩]
          rw [lookup_upsert_self]
        · have hnone : lookupKey cached q = none := by
            rw [lookupKey_eq_none_iff]
            simpa using hhit
          rw [hnone]
          rw [if_neg (by intro hc; exact hhit hc.2)]
      · have houter : ¬ (p ∈ q :: req' ∧ hasKey cached p = true) := by
          intro hc
          rcases List.mem_cons.mp hc.1 with h | h
          · exact hqp h.symm
          · exact hmem ⟨h, hc.2⟩
        rw [if_neg houter]
        rcases hv : lookupKey cached q with _ | v
        · rfl
        · exact lookup_upsert_other acc p q v hqp

theorem lookup_filterCached (cached : PerspectiveDict)
    (req : List Perspective) (p : Perspective) :
    lookupKey (filterCached cached req) p =
      if p ∈ req ∧ hasKey cached p = true then lookupKey cached p else none := by
  unfold filterCached
  rw [filterCached_aux_lookup]
  rfl

theorem filterCached_aux_nil_iff (cached : PerspectiveDict)
    (req : List Perspective) (acc : PerspectiveDict) :
    (req.foldl (fun acc q =>
        match lookupKey cached q with
        | some v => upsertKey acc q v
        | none => acc) acc) = [] ↔
      acc = [] ∧ ∀ q ∈ req, lookupKey cached q = none := by
  induction req generalizing acc with
  | nil => simp
  | cons q req' ih =>
    simp only [List.foldl_cons]
    rw [ih]
    constructor
    · rintro ⟨hstep, hrest⟩
      rcases hv : lookupKey cached q with _ | v
      · rw [hv] at hstep
        exact ⟨hstep, by
          intro r hr
          rcases List.mem_cons.mp hr with h | h
          · rw [h]; exact hv
          · exact hrest r h⟩
      · rw [hv] at hstep
        exact absurd hstep (upsertKey_ne_nil acc q v)
    · rintro ⟨hacc, hall⟩
      have hq : lookupKey cached q = none := hall q (List.mem_cons_self q req')
      rw [hq]
      exact ⟨hacc, fun r hr => hall r (List.mem_cons_of_mem q hr)⟩

/-! ### Claims C1 and C2 -/

/-- Claim C1 as stated is false on the code: with only `catholic` cached
for range (1,1) and `{catholic, baptist}` requested, `generate_summary`
answers from cache alone — the Analyzer is never invoked and the response
contains no `baptist` record. -/
theorem C1_counterexample :
    (generate_summary_cache exampleCacheDb 1 1 ("h1".data)
      [Perspective.catholic, Perspective.baptist] exampleGen).invoked = none
    ∧ lookupKey ((generate_summary_cache exampleCacheDb 1 1 ("h1".data)
      [Perspective.catholic, Perspective.baptist] exampleGen).response.perspectives)
        Perspective.baptist = none := by
  decide

/-- Claim C1 amended: the lookup distinguishes hits from misses only in the
all-miss direction.  When the cached entry holds at least one requested
perspective, `generate_summary` returns exactly the cached records for the
requested perspectives (each hit carries its stored record, every miss is
absent from the response), does not invoke the Analyzer, and leaves the
cache unchanged; the Analyzer is invoked — and then for the full requested
list — only when no requested perspective is cached. -/
theorem C1_cache_hit_behavior (db : List VerseSummary) (s e : Nat)
    (thash : Str) (requested : List Perspective)
    (gen : List Perspective → PerspectiveDict × List Str) (cs : VerseSummary)
    (hfind : findSummary db s e thash = some cs) :
    ((∃ p ∈ requested, hasKey cs.perspectives p = true) →
      generate_summary_cache db s e thash requested gen =
        SummaryStep.mk
          (SummaryResponse.mk (filterCached cs.perspectives requested) true)
          none db
      ∧ ∀ p, lookupKey (filterCached cs.perspectives requested) p =
          if p ∈ requested ∧ hasKey cs.perspectives p = true then
            lookupKey cs.perspectives p
          else none)
    ∧ ((∀ p ∈ requested, hasKey cs.perspectives p = false) →
      (generate_summary_cache db s e thash requested gen).invoked
        = some requested) := by
  constructor
  · intro hhit
    have hne : ¬ (filterCached cs.perspectives requested).isEmpty = true := by
      rw [List.isEmpty_iff]
      unfold filterCached
      rw [filterCached_aux_nil_iff]
      rintro ⟨-, hall⟩
      rcases hhit with ⟨p, hp, hkey⟩
      have := hall p hp
      rw [lookupKey_eq_none_iff] at this
      rw [this] at hkey
      exact absurd hkey (by simp)
    constructor
    · unfold generate_summary_cache
      rw [hfind]
      simp only [if_neg hne]
    · intro p
      exact lookup_filterCached cs.perspectives requested p
  · intro hmiss
    have he : (filterCached cs.perspectives requested).isEmpty = true := by
      rw [List.isEmpty_iff]
      unfold filterCached
      rw [filterCached_aux_nil_iff]
      exact ⟨rfl, fun q hq => by
        rw [lookupKey_eq_none_iff]
        exact hmiss q hq⟩
    unfold generate_summary_cache
    rw [hfind]
    simp only [if_pos he]

/-- Witness for C1 amended at the concrete fixture. -/
theorem C1_witness :
    generate_summary_cache exampleCacheDb 1 1 ("h1".data)
      [Perspective.catholic, Perspective.baptist] exampleGen =
      SummaryStep.mk
        (SummaryResponse.mk [(Perspective.catholic, recCatholic)] true)
        none exampleCacheDb := by
  have h := (C1_cache_hit_behavior exampleCacheDb 1 1 ("h1".data)
    [Perspective.catholic, Perspective.baptist] exampleGen
    (VerseSummary.mk 1 1 ("h1".data) [(Perspective.catholic, recCatholic)] [])
    (by decide)).1
    ⟨Perspective.catholic, by decide, by decide⟩
  exact h.1.trans (by decide)

/-- Claim C2: the merge step of `generate_summary` creates the entry with
exactly the new perspectives when none exists; otherwise it upserts only at
the perspective-key level — keys absent from the new dict keep their stored
record, keys present are replaced — and afterwards the entry found under
the same (range, digest) key holds the union of old and new perspective
keys, so a lookup for the union hits all of them. -/
theorem C2_merge_semantics (db : List VerseSummary) (s e : Nat) (thash : Str)
    (pd : PerspectiveDict) (refs : List Str) :
    (findSummary db s e thash = none →
      mergeSummary db s e thash pd refs = db ++ [VerseSummary.mk s e thash pd refs])
    ∧ (∀ cs, findSummary db s e thash = some cs →
      findSummary (mergeSummary db s e thash pd refs) s e thash =
        some { cs with perspectives := dictUpdate cs.perspectives pd,
                       cross_references := cs.cross_references ++ refs }
      ∧ (∀ k, hasKey pd k = false →
          lookupKey (dictUpdate cs.perspectives pd) k = lookupKey cs.perspectives k)
      ∧ ((pd.map Prod.fst).Nodup → ∀ k, hasKey pd k = true →
          lookupKey (dictUpdate cs.perspectives pd) k = lookupKey pd k)
      ∧ (∀ k, hasKey (dictUpdate cs.perspectives pd) k
          = (hasKey cs.perspectives k || hasKey pd k))) := by
  constructor
  · intro hnone
    unfold mergeSummary
    rw [hnone]
  · intro cs hsome
    refine ⟨?_, ?_, ?_, ?_⟩
    · unfold mergeSummary
      rw [hsome]
      unfold findSummary at hsome ⊢
      have hcs : summaryKeyMatch s e thash cs = true := List.find?_some hsome
      refine find?_replaceFirst _ _ db cs hsome ?_
      unfold summaryKeyMatch at hcs ⊢
      exact hcs
    · intro k hk
      exact lookup_dictUpdate_of_absent pd cs.perspectives k hk
    · intro hnd k hk
      exact lookup_dictUpdate_of_present pd cs.perspectives k hnd hk
    · intro k
      exact hasKey_dictUpdate cs.perspectives pd k

/-- Witness for C2 at the concrete fixture: merging a `baptist` result into
an entry holding `catholic` keeps the `catholic` record and stores both. -/
theorem C2_witness :
    findSummary (mergeSummary exampleCacheDb 1 1 ("h1".data)
        [(Perspective.baptist, recBaptist)] []) 1 1 ("h1".data) =
      some (VerseSummary.mk 1 1 ("h1".data)
        [(Perspective.catholic, recCatholic), (Perspective.baptist, recBaptist)] [])
    ∧ lookupKey (dictUpdate [(Perspective.catholic, recCatholic)]
        [(Perspective.baptist, recBaptist)]) Perspective.catholic = some recCatholic := by
  have h := (C2_merge_semantics exampleCacheDb 1 1 ("h1".data)
    [(Perspective.baptist, recBaptist)] []).2
    (VerseSummary.mk 1 1 ("h1".data) [(Perspective.catholic, recCatholic)] [])
    (by decide)
  refine ⟨h.1.trans (by decide), ?_⟩
  exact (h.2.1 Perspective.catholic (by decide)).trans (by decide)

/-! ### Claims C3 and C4 -/

/-- Claim C3 is false as stated: a candidate whose only fulfillment
reference points at a nonexistent chapter is not rejected — the record is
created with the unresolvable reference silently dropped (empty
fulfillment list), a partial import. -/
theorem C3_counterexample :
    import_prophecy importCorpus danglingCandidate =
      some (ProphecyRec.mk ("He shall crush the serpent".data)
        ("birth_circumstances".data) 1 1 [] ("expl".data)) := by
  decide

/-- Claim C3 amended: only a failure to resolve the prophecy range (or an
invalid category) rejects the whole candidate; fulfillment references that
fail to resolve are dropped individually while the candidate is imported
with the remaining ones; in both cases the run continues with the
subsequent candidates. -/
theorem C3_import_behavior (c : Corpus) (p : ProphecyIn) :
    ((get_verse_id c p.prophecy_reference.book_name p.prophecy_reference.chapter
        p.prophecy_reference.verse_start = none ∨
      get_verse_id c p.prophecy_reference.book_name p.prophecy_reference.chapter
        p.prophecy_reference.verse_end = none) →
      import_prophecy c p = none)
    ∧ (∀ r, import_prophecy c p = some r →
        r.fulfillment_references =
          convert_fulfillment_references_to_verse_ids c p.fulfillment_references)
    ∧ (import_prophecy c p = none →
        ∀ acc rest, importPipelineFrom c acc (p :: rest)
          = importPipelineFrom c acc rest)
    ∧ (∀ r, import_prophecy c p = some r →
        ∀ acc rest, importPipelineFrom c acc (p :: rest)
          = importPipelineFrom c (acc ++ [r]) rest) := by
  refine ⟨?_, ?_, ?_, ?_⟩
  · intro h
    unfold import_prophecy
    rcases h with h | h
    · rw [h]
    · rcases hs : get_verse_id c p.prophecy_reference.book_name
          p.prophecy_reference.chapter p.prophecy_reference.verse_start with _ | sid
      · rfl
      · rw [h]
  · intro r h
    unfold import_prophecy at h
    split at h
    · exact absurd h (by simp)
    · split at h
      · exact absurd h (by simp)
      · split at h
        · injection h with h2
          rw [← h2]
        · exact absurd h (by simp)
  · intro h acc rest
    unfold importPipelineFrom
    simp only [List.foldl_cons, importStep, h]
  · intro r h acc rest
    unfold importPipelineFrom
    simp only [List.foldl_cons, importStep, h]

/-- Witness for C3 amended: an unresolvable prophecy range rejects the
candidate and the pipeline moves on. -/
theorem C3_witness :
    import_prophecy importCorpus badRangeCandidate = none ∧
    importPipelineFrom importCorpus [] [badRangeCandidate, danglingCandidate] =
      importPipelineFrom importCorpus [] [danglingCandidate] := by
  have h := C3_import_behavior importCorpus badRangeCandidate
  have h1 := h.1 (Or.inl (by decide))
  exact ⟨h1, h.2.2.1 h1 [] [danglingCandidate]⟩

theorem is_duplicate_iff (p : ProphecyIn) (acc : List ProphecyIn) :
    is_duplicate_prophecy p acc = true ↔ ∃ e ∈ acc, dedupKey e = dedupKey p := by
  unfold is_duplicate_prophecy dedupKey
  rw [List.any_eq_true]
  constructor
  · rintro ⟨e, he, hcond⟩
    simp only [Bool.and_eq_true, beq_iff_eq] at hcond
    refine ⟨e, he, ?_⟩
    rw [Prod.ext_iff]
    exact ⟨hcond.1.symm, hcond.2.symm⟩
  · rintro ⟨e, he, hkey⟩
    rw [Prod.ext_iff] at hkey
    refine ⟨e, he, ?_⟩
    simp only [Bool.and_eq_true, beq_iff_eq]
    exact ⟨hkey.1.symm, hkey.2.symm⟩

/-- Claim C4: dedup is idempotent at the dedup-key level.  With the
persisted set free of the key, a validated candidate is accepted once and
a second candidate with the same (reference, case-folded 50-character claim
head) key is skipped — in the same run or, via the accumulated dataset, in
a later run — while a candidate with the same verse range but a different
claim head is accepted as a second record. -/
theorem C4_dedup_idempotent (c : Corpus) (existing : List ProphecyIn)
    (p1 p2 : ProphecyIn)
    (hv1 : validate_prophecy c p1 = true)
    (hkey : dedupKey p2 = dedupKey p1)
    (hnew : ∀ e ∈ existing, dedupKey e ≠ dedupKey p1) :
    processCandidates c existing [p1, p2] = existing ++ [p1]
    ∧ (∀ q, dedupKey q = dedupKey p1 →
        processCandidates c (existing ++ [p1]) [q] = existing ++ [p1])
    ∧ (∀ p3, validate_prophecy c p3 = true → dedupKey p3 ≠ dedupKey p1 →
        (∀ e ∈ existing, dedupKey e ≠ dedupKey p3) →
        processCandidates c existing [p1, p3] = existing ++ [p1, p3]) := by
  have hd1 : is_duplicate_prophecy p1 existing = false := by
    rw [← Bool.not_eq_true, is_duplicate_iff]
    rintro ⟨e, he, hk⟩
    exact hnew e he hk
  have step1 : genStep c existing p1 = existing ++ [p1] := by
    unfold genStep
    rw [hv1, hd1]
    simp
  refine ⟨?_, ?_, ?_⟩
  · have hd2 : is_duplicate_prophecy p2 (existing ++ [p1]) = true := by
      rw [is_duplicate_iff]
      exact ⟨p1, by simp, hkey.symm⟩
    unfold processCandidates
    simp only [List.foldl_cons, List.foldl_nil]
    rw [step1]
    unfold genStep
    rw [hd2]
    simp
  · intro q hq
    have hdq : is_duplicate_prophecy q (existing ++ [p1]) = true := by
      rw [is_duplicate_iff]
      exact ⟨p1, by simp, hq.symm⟩
    unfold processCandidates
    simp only [List.foldl_cons, List.foldl_nil]
    unfold genStep
    rw [hdq]
    simp
  · intro p3 hv3 hk3 hnew3
    have hd3 : is_duplicate_prophecy p3 (existing ++ [p1]) = false := by
      rw [← Bool.not_eq_true, is_duplicate_iff]
      rintro ⟨e, he, hk⟩
      rcases List.mem_append.mp he with he' | he'
      · exact hnew3 e he' hk
      · rw [List.mem_singleton.mp he'] at hk
        exact hk3 hk.symm
    unfold processCandidates
    simp only [List.foldl_cons, List.foldl_nil]
    rw [step1]
    unfold genStep
    rw [hv3, hd3]
    simp

/-- Witness for C4 on the concrete corpus: a case-variant duplicate is
accepted once; a materially different claim on the same range gives two
records. -/
theorem C4_witness :
    processCandidates importCorpus [] [genCand1, genCand2] = [genCand1]
    ∧ processCandidates importCorpus [] [genCand1, genCand3]
        = [genCand1, genCand3] := by
  have h := C4_dedup_idempotent importCorpus [] genCand1 genCand2
    (by decide) (by decide) (by intro e he _; simp at he)
  constructor
  · simpa using h.1
  · have h3 := h.2.2 genCand3 (by decide) (by decide)
      (by intro e he _; simp at he)
    simpa using h3

/-! ### Generic list helpers -/

theorem filter_head?_eq_find? {α : Type} (p : α → Bool) (l : List α) :
    (l.filter p).head? = l.find? p := by
  induction l with
  | nil => rfl
  | cons a l ih =>
    by_cases h : p a <;> simp [List.filter_cons, List.find?_cons, h, ih]

theorem find?_eq_some_of_unique {α : Type} (p : α → Bool) (l : List α) (x : α)
    (hmem : x ∈ l) (hpx : p x = true)
    (huniq : ∀ y ∈ l, p y = true → y = x) :
    l.find? p = some x := by
  induction l with
  | nil => simp at hmem
  | cons a l ih =>
    by_cases h : p a
    · rw [List.find?_cons_of_pos _ h, huniq a (List.mem_cons_self a l) h]
    · rw [List.find?_cons_of_neg _ h]
      rcases List.mem_cons.mp hmem with he | he
      · rw [he] at hpx
        exact absurd hpx h
      · exact ih he (fun y hy hpy => huniq y (List.mem_cons_of_mem a hy) hpy)

theorem head?_filter_of_mem {α : Type} (p : α → Bool) (R : α → α → Prop)
    (l : List α) (x : α) (hR : l.Pairwise R) (hx : x ∈ l) (hpx : p x = true)
    (hmin : ∀ y ∈ l, p y = true → ¬ R y x) :
    (l.filter p).head? = some x := by
  induction l with
  | nil => simp at hx
  | cons a l ih =>
    rw [List.pairwise_cons] at hR
    by_cases h : p a
    · have hax : a = x := by
        rcases List.mem_cons.mp hx with he | he
        · exact he.symm
        · exact absurd (hR.1 x he) (hmin a (List.mem_cons_self a l) h)
      rw [List.filter_cons_of_pos h]
      simp [hax]
    · have hxl : x ∈ l := by
        rcases List.mem_cons.mp hx with he | he
        · rw [he] at hpx
          exact absurd hpx h
        · exact he
      rw [List.filter_cons_of_neg h]
      exact ih hR.2 hxl (fun y hy hpy => hmin y (List.mem_cons_of_mem a hy) hpy)

theorem getLast?_filter_of_mem {α : Type} (p : α → Bool) (R : α → α → Prop)
    (l : List α) (x : α) (hR : l.Pairwise R) (hx : x ∈ l) (hpx : p x = true)
    (hmax : ∀ y ∈ l, p y = true → ¬ R x y) :
    (l.filter p).getLast? = some x := by
  rw [List.getLast?_eq_head?_reverse, ← List.filter_reverse]
  exact head?_filter_of_mem p (fun u v => R v u) l.reverse x
    (List.pairwise_reverse.mpr hR) (List.mem_reverse.mpr hx) hpx
    (fun y hy hpy => hmax y (List.mem_reverse.mp hy) hpy)

theorem not_mem_natChars (n : Nat) (ch : Char) (h : ch.isDigit = false) :
    ch ∉ natChars n := by
  intro hm
  have hall := natChars_all_digits n
  rw [List.all_eq_true] at hall
  have hd := hall ch hm
  rw [h] at hd
  exact Bool.false_ne_true hd

/-! ### Claim C7 -/

/-- Claim C7 is false as stated: for the query "ze" there is a book whose
name starts with "ze" (Zephaniah), yet resolution returns Ezekiel, an
earlier-in-canon substring-only match — there is no exact → head-of-name →
substring tier ordering. -/
theorem C7_counterexample :
    resolve_book_slug c7Corpus ("ze".data) =
      some (Book.mk 1 ("Ezekiel".data) ("Ezek".data) 26)
    ∧ (lowerS (slugPotentialName ("ze".data))).isPrefixOf
        (lowerS ("Zephaniah".data)) = true
    ∧ (lowerS (slugPotentialName ("ze".data))).isPrefixOf
        (lowerS ("Ezekiel".data)) = false
    ∧ Book.mk 2 ("Zephaniah".data) ("Zeph".data) 36 ∈ c7Corpus.books := by
  decide

/-- Claim C7 amended: resolution applies a case-insensitive exact name
match first; otherwise one combined filter (case-insensitive substring on
name or abbreviation, or head of name) with no priority between the three
patterns, returning the first match in table order; every resolved book
satisfies one of the two predicates. -/
theorem C7_resolution_behavior (c : Corpus) (slug : Str) :
    (∀ b, c.books.find? (bookExactMatch (slugPotentialName slug)) = some b →
      resolve_book_slug c slug = some b)
    ∧ (c.books.find? (bookExactMatch (slugPotentialName slug)) = none →
      resolve_book_slug c slug =
        c.books.find? (bookPartialMatch (slugPotentialName slug)))
    ∧ (∀ b, resolve_book_slug c slug = some b →
      bookExactMatch (slugPotentialName slug) b = true ∨
        bookPartialMatch (slugPotentialName slug) b = true) := by
  refine ⟨?_, ?_, ?_⟩
  · intro b h
    unfold resolve_book_slug
    rw [h]
  · intro h
    unfold resolve_book_slug
    rw [h]
    exact filter_head?_eq_find? _ _
  · intro b h
    unfold resolve_book_slug at h
    rcases he : c.books.find? (bookExactMatch (slugPotentialName slug)) with _ | b'
    · rw [he] at h
      rw [filter_head?_eq_find?] at h
      exact Or.inr (List.find?_some h)
    · rw [he] at h
      injection h with h2
      exact Or.inl (h2 ▸ List.find?_some he)

/-- Witness for C7 amended: with no exact match for "ze", resolution is the
first table-order match of the combined filter. -/
theorem C7_witness :
    resolve_book_slug c7Corpus ("ze".data) =
      c7Corpus.books.find? (bookPartialMatch (slugPotentialName ("ze".data))) := by
  exact (C7_resolution_behavior c7Corpus ("ze".data)).2.1 (by decide)

/-! ### Claim C6 -/

/-- Claim C6 is false as stated: although verses 1 and 2 of Genesis 1
exist, the reference "Genesis 1:2-1" is not normalized to the range
(1, 2) — the route fails with verses-not-found. -/
theorem C6_counterexample :
    get_by_reference roundtripCorpus ("Genesis 1:2-1".data) = .versesNotFound
    ∧ getVerse roundtripCorpus 1 = some (Verse.mk 1 1 1 ("In the beginning".data))
    ∧ getVerse roundtripCorpus 2 = some (Verse.mk 2 1 2 ("And the earth".data)) := by
  decide

/-- Claim C6 amended: the parser performs no swap — "V1-V2" yields the
bounds (V1, V2) exactly as written, a single verse number yields
start = end, a reversed pair makes the verse query empty (so the route
answers verses-not-found instead of a normalized range), and consequently
any reference that does produce verses has start ≤ end. -/
theorem C6_no_normalization (v1 v2 : Nat) :
    parseVersePart (natChars v1 ++ '-' :: natChars v2) = some (v1, v2)
    ∧ parseVersePart (natChars v1) = some (v1, v1)
    ∧ (v2 < v1 → ∀ (c : Corpus) (chid : Nat), verseRangeQuery c chid v1 v2 = [])
    ∧ (∀ (c : Corpus) (chid : Nat), verseRangeQuery c chid v1 v2 ≠ [] → v1 ≤ v2) := by
  refine ⟨?_, ?_, ?_, ?_⟩
  · have hmem : '-' ∈ natChars v1 ++ '-' :: natChars v2 :=
      List.mem_append_right _ (List.mem_cons_self _ _)
    have hsp : splitFirstCh '-' (natChars v1 ++ '-' :: natChars v2) =
        (natChars v1, natChars v2) :=
      splitFirstCh_eq '-' (natChars v1) (natChars v2)
        (not_mem_natChars v1 '-' (by decide))
    unfold parseVersePart
    rw [if_pos hmem, hsp]
    simp [parseNat_natChars]
  · have hmem : '-' ∉ natChars v1 := not_mem_natChars v1 '-' (by decide)
    unfold parseVersePart
    rw [if_neg hmem, parseNat_natChars]
    rfl
  · intro hlt c chid
    unfold verseRangeQuery
    rw [List.filter_eq_nil_iff]
    intro v _
    simp only [Bool.and_eq_true, decide_eq_true_eq, not_and]
    intro _ h1
    omega
  · intro c chid hne
    rcases List.exists_mem_of_ne_nil _ hne with ⟨v, hv⟩
    unfold verseRangeQuery at hv
    have := List.of_mem_filter hv
    simp only [Bool.and_eq_true, decide_eq_true_eq] at this
    omega

/-- Witness for C6 amended at (3, 2). -/
theorem C6_witness :
    parseVersePart (natChars 3 ++ '-' :: natChars 2) = some (3, 2)
    ∧ verseRangeQuery roundtripCorpus 1 3 2 = [] := by
  have h := C6_no_normalization 3 2
  exact ⟨h.1, h.2.2.1 (by decide) roundtripCorpus 1⟩

/-! ### Claim C5 -/

/-- Claim C5 is false as stated: verse ids 2 (Genesis 1:2) and 3
(Genesis 2:1) belong to the same book with 2 ≤ 3, their display string is
"Genesis 1:2-1" (start verse's chapter only), and resolving that string
fails with verses-not-found instead of returning the range (2, 3). -/
theorem C5_counterexample :
    displayRef roundtripCorpus 2 3 = some ("Genesis 1:2-1".data)
    ∧ get_by_reference roundtripCorpus ("Genesis 1:2-1".data)
        = .versesNotFound := by
  decide

/-- Claim C5 amended: the display/parse round trip holds for ranges inside
one chapter.  For verse ids a ≤ b of the same chapter, on a corpus whose
verses table is sorted by id, agrees between verse-number order and id
order inside a chapter, is id-contiguous inside a chapter, and resolves
the book and chapter uniquely, parsing the display string returns exactly
the verses with ids in [a, b], starting at a and ending at b. -/
theorem C5_roundtrip_same_chapter (c : Corpus) (a b : Nat) (va vb : Verse)
    (ch : Chapter) (bk : Book) (disp : Str)
    (hva : getVerse c a = some va) (hvb : getVerse c b = some vb)
    (hab : a ≤ b) (hsame : va.chapter_id = vb.chapter_id)
    (hch : getChapterById c va.chapter_id = some ch)
    (hbk : getBookById c ch.book_id = some bk)
    (hdisp : displayRef c a b = some disp)
    (W1 : c.verses.Pairwise (fun u v => u.id < v.id))
    (W2 : ∀ u ∈ c.verses, ∀ v ∈ c.verses, u.chapter_id = v.chapter_id →
      (u.verse_number ≤ v.verse_number ↔ u.id ≤ v.id))
    (W3 : ∀ u ∈ c.verses, ∀ v ∈ c.verses, ∀ w ∈ c.verses,
      u.chapter_id = v.chapter_id → u.id ≤ w.id → w.id ≤ v.id →
      w.chapter_id = u.chapter_id)
    (hbuniq : ∀ b' ∈ c.books, bookRefMatch bk.name b' = true → b' = bk)
    (hcuniq : ∀ ch' ∈ c.chapters,
      (ch'.book_id == bk.id && ch'.chapter_number == ch.chapter_number) = true →
      ch' = ch) :
    get_by_reference c disp =
      .ok (versesInIdRange c a b)
        (joinCh ' ' ((versesInIdRange c a b).map (·.text)))
    ∧ (versesInIdRange c a b).head? = some va
    ∧ (versesInIdRange c a b).getLast? = some vb := by
  have hvaid : va.id = a := by simpa using List.find?_some hva
  have hvbid : vb.id = b := by simpa using List.find?_some hvb
  have hvam : va ∈ c.verses := List.mem_of_find?_eq_some hva
  have hvbm : vb ∈ c.verses := List.mem_of_find?_eq_some hvb
  have hcha : ch.id = va.chapter_id := by simpa using List.find?_some hch
  have hchm : ch ∈ c.chapters := List.mem_of_find?_eq_some hch
  have hbkid : bk.id = ch.book_id := by simpa using List.find?_some hbk
  have hbkm : bk ∈ c.books := List.mem_of_find?_eq_some hbk
  -- the shape of the display string
  have hnum : va.verse_number ≤ vb.verse_number :=
    (W2 va hvam vb hvbm hsame).mpr (by omega)
  have hdr : displayRef c a b = rangeReference c va vb a b := by
    unfold displayRef
    rw [hva, hvb]
  rw [hdr] at hdisp
  unfold rangeReference at hdisp
  simp only [hch, hbk] at hdisp
  have hdisp' : disp = bk.name ++ ' ' ::
      (natChars ch.chapter_number ++ ':' ::
        (if a = b then natChars va.verse_number
         else natChars va.verse_number ++ '-' :: natChars vb.verse_number)) := by
    by_cases habe : a = b
    · rw [if_pos (by simpa using habe)] at hdisp
      rw [if_pos habe]
      have hd := (Option.some.inj hdisp).symm
      rw [hd]
      simp [List.append_assoc]
    · rw [if_neg (by simpa using habe)] at hdisp
      rw [if_neg habe]
      have hd := (Option.some.inj hdisp).symm
      rw [hd]
      simp [List.append_assoc]
  -- the chapter:verse token and the verse sub-token
  have hrest_nospace : ' ' ∉ (if a = b then natChars va.verse_number
      else natChars va.verse_number ++ '-' :: natChars vb.verse_number) := by
    split
    · exact not_mem_natChars _ ' ' (by decide)
    · intro hm
      rcases List.mem_append.mp hm with h | h
      · exact not_mem_natChars _ ' ' (by decide) h
      · rcases List.mem_cons.mp h with h | h
        · exact absurd h (by decide)
        · exact not_mem_natChars _ ' ' (by decide) h
  have hcv_nospace : ' ' ∉ natChars ch.chapter_number ++ ':' ::
      (if a = b then natChars va.verse_number
       else natChars va.verse_number ++ '-' :: natChars vb.verse_number) := by
    intro hm
    rcases List.mem_append.mp hm with h | h
    · exact not_mem_natChars _ ' ' (by decide) h
    · rcases List.mem_cons.mp h with h | h
      · exact absurd h (by decide)
      · exact hrest_nospace h
  have hsplit : splitCh ' ' disp = splitCh ' ' bk.name ++
      [natChars ch.chapter_number ++ ':' ::
        (if a = b then natChars va.verse_number
         else natChars va.verse_number ++ '-' :: natChars vb.verse_number)] := by
    rw [hdisp', splitCh_append_sep, splitCh_no_sep _ _ hcv_nospace]
  have hlen : ¬ (splitCh ' ' disp).length < 2 := by
    rw [hsplit, List.length_append]
    have := splitCh_ne_nil ' ' bk.name
    have : 0 < (splitCh ' ' bk.name).length := List.length_pos.mpr this
    simp only [List.length_cons, List.length_nil]
    omega
  have hcolon : ':' ∈ natChars ch.chapter_number ++ ':' ::
      (if a = b then natChars va.verse_number
       else natChars va.verse_number ++ '-' :: natChars vb.verse_number) :=
    List.mem_append_right _ (List.mem_cons_self _ _)
  have hsfc : splitFirstCh ':' (natChars ch.chapter_number ++ ':' ::
      (if a = b then natChars va.verse_number
       else natChars va.verse_number ++ '-' :: natChars vb.verse_number)) =
      (natChars ch.chapter_number,
       (if a = b then natChars va.verse_number
        else natChars va.verse_number ++ '-' :: natChars vb.verse_number)) :=
    splitFirstCh_eq ':' _ _ (not_mem_natChars _ ':' (by decide))
  have hbfind : c.books.find? (bookRefMatch bk.name) = some bk := by
    refine find?_eq_some_of_unique _ _ bk hbkm ?_ hbuniq
    unfold bookRefMatch
    simp
  have hcfind : c.chapters.find? (fun ch' =>
      ch'.book_id == bk.id && ch'.chapter_number == ch.chapter_number) = some ch := by
    refine find?_eq_some_of_unique _ _ ch hchm ?_ hcuniq
    simp [hbkid]
  have hvv : parseVersePart (if a = b then natChars va.verse_number
      else natChars va.verse_number ++ '-' :: natChars vb.verse_number) =
      some (va.verse_number, vb.verse_number) := by
    by_cases habe : a = b
    · have hvv' : va = vb := by
        rw [habe] at hva
        rw [hva] at hvb
        exact Option.some.inj hvb
      rw [if_pos habe]
      unfold parseVersePart
      rw [if_neg (not_mem_natChars _ '-' (by decide)), parseNat_natChars]
      rw [← hvv']
      rfl
    · rw [if_neg habe]
      unfold parseVersePart
      rw [if_pos (List.mem_append_right _ (List.mem_cons_self _ _)),
        splitFirstCh_eq '-' _ _ (not_mem_natChars _ '-' (by decide))]
      simp [parseNat_natChars]
  -- the parsed verse query equals the id-range query
  have hfilter : verseRangeQuery c ch.id va.verse_number vb.verse_number =
      versesInIdRange c a b := by
    unfold verseRangeQuery versesInIdRange
    refine List.filter_congr ?_
    intro v hv
    rw [Bool.eq_iff_iff]
    simp only [Bool.and_eq_true, decide_eq_true_eq, beq_iff_eq]
    constructor
    · rintro ⟨⟨hchap, h1⟩, h2⟩
      have hvch : va.chapter_id = v.chapter_id := by omega
      have hl : a ≤ v.id := by
        rw [← hvaid]
        exact (W2 va hvam v hv hvch).mp h1
      have hr : v.id ≤ b := by
        rw [← hvbid]
        exact (W2 v hv vb hvbm (by rw [← hvch, hsame])).mp h2
      exact ⟨hl, hr⟩
    · rintro ⟨h1, h2⟩
      have hvch : v.chapter_id = va.chapter_id :=
        W3 va hvam vb hvbm v hv hsame (by omega) (by omega)
      refine ⟨⟨by rw [hvch, hcha], ?_⟩, ?_⟩
      · exact (W2 va hvam v hv hvch.symm).mpr (by omega)
      · exact (W2 v hv vb hvbm (by rw [hvch, hsame])).mpr (by omega)
  have hhead : (versesInIdRange c a b).head? = some va := by
    unfold versesInIdRange
    refine head?_filter_of_mem _ (fun u v => u.id < v.id) _ va W1 hvam ?_ ?_
    · simp only [Bool.and_eq_true, decide_eq_true_eq]
      omega
    · intro y _ hy
      simp only [Bool.and_eq_true, decide_eq_true_eq] at hy
      omega
  have hlast : (versesInIdRange c a b).getLast? = some vb := by
    unfold versesInIdRange
    refine getLast?_filter_of_mem _ (fun u v => u.id < v.id) _ vb W1 hvbm ?_ ?_
    · simp only [Bool.and_eq_true, decide_eq_true_eq]
      omega
    · intro y _ hy
      simp only [Bool.and_eq_true, decide_eq_true_eq] at hy
      omega
  have hemp : (versesInIdRange c a b).isEmpty = false := by
    rw [List.isEmpty_eq_false]
    intro hnil
    rw [hnil] at hhead
    simp at hhead
  refine ⟨?_, hhead, hlast⟩
  unfold get_by_reference
  rw [hsplit]
  rw [if_neg (by rw [← hsplit]; exact hlen)]
  rw [List.getLastD_concat, if_pos hcolon, hsfc]
  simp only [parseNat_natChars, List.dropLast_concat, joinCh_splitCh, hbfind,
    hcfind, hvv, hfilter, hemp]
  simp

/-- Witness for C5 amended: the ids (1, 2) inside Genesis 1 round-trip,
and so does the single-verse range (3, 3) inside Genesis 2. -/
theorem C5_witness :
    get_by_reference roundtripCorpus ("Genesis 1:1-2".data) =
      .ok [Verse.mk 1 1 1 ("In the beginning".data),
           Verse.mk 2 1 2 ("And the earth".data)]
        ("In the beginning And the earth".data)
    ∧ get_by_reference roundtripCorpus ("Genesis 2:1".data) =
      .ok [Verse.mk 3 2 1 ("Thus the heavens".data)]
        ("Thus the heavens".data) := by
  constructor
  · have h := C5_roundtrip_same_chapter roundtripCorpus 1 2
      (Verse.mk 1 1 1 ("In the beginning".data))
      (Verse.mk 2 1 2 ("And the earth".data))
      (Chapter.mk 1 1 1) (Book.mk 1 ("Genesis".data) ("Gen".data) 1)
      ("Genesis 1:1-2".data)
      (by decide) (by decide) (by decide) (by decide) (by decide) (by decide)
      (by decide) (by decide) (by decide) (by decide) (by decide) (by decide)
    exact h.1.trans (by decide)
  · have h := C5_roundtrip_same_chapter roundtripCorpus 3 3
      (Verse.mk 3 2 1 ("Thus the heavens".data))
      (Verse.mk 3 2 1 ("Thus the heavens".data))
      (Chapter.mk 2 1 2) (Book.mk 1 ("Genesis".data) ("Gen".data) 1)
      ("Genesis 2:1".data)
      (by decide) (by decide) (by decide) (by decide) (by decide) (by decide)
      (by decide) (by decide) (by decide) (by decide) (by decide) (by decide)
    exact h.1.trans (by decide)

/-! ### Claim C8 -/

theorem mem_dedup_append {α : Type} [DecidableEq α] (l acc : List α) (x : α) :
    x ∈ l.foldl (fun a y => if y ∈ a then a else a ++ [y]) acc ↔
      x ∈ acc ∨ x ∈ l := by
  induction l generalizing acc with
  | nil => simp
  | cons y l ih =>
    simp only [List.foldl_cons]
    rw [ih]
    by_cases hy : y ∈ acc
    · rw [if_pos hy]
      constructor
      · rintro (h | h)
        · exact Or.inl h
        · exact Or.inr (List.mem_cons_of_mem y h)
      · rintro (h | h)
        · exact Or.inl h
        · rcases List.mem_cons.mp h with he | he
          · exact Or.inl (he ▸ hy)
          · exact Or.inr he
    · rw [if_neg hy]
      simp only [List.mem_append, List.mem_singleton, List.mem_cons]
      tauto

theorem mem_fulfillProphecyLoop (props : List ProphecyRec) (ids : List Nat)
    (x : ProphecyRec) :
    x ∈ fulfillProphecyLoop props ids ↔
      ∃ vid ∈ ids, x ∈ fulfillLikeRows props vid := by
  unfold fulfillProphecyLoop
  suffices h : ∀ (ids : List Nat) (acc : List ProphecyRec),
      x ∈ ids.foldl (fun acc vid =>
        (fulfillLikeRows props vid).foldl
          (fun acc2 mp => if mp ∈ acc2 then acc2 else acc2 ++ [mp]) acc) acc ↔
        x ∈ acc ∨ ∃ vid ∈ ids, x ∈ fulfillLikeRows props vid by
    rw [h ids []]
    simp
  intro ids
  induction ids with
  | nil => intro acc; simp
  | cons vid ids ih =>
    intro acc
    simp only [List.foldl_cons]
    rw [ih, mem_dedup_append]
    constructor
    · rintro ((h | h) | ⟨vid', hv', h⟩)
      · exact Or.inl h
      · exact Or.inr ⟨vid, List.mem_cons_self vid ids, h⟩
      · exact Or.inr ⟨vid', List.mem_cons_of_mem vid hv', h⟩
    · rintro (h | ⟨vid', hv', h⟩)
      · exact Or.inl (Or.inl h)
      · rcases List.mem_cons.mp hv' with he | he
        · exact Or.inl (Or.inr (he ▸ h))
        · exact Or.inr ⟨vid', he, h⟩

theorem infix_joinStr {sep x : Str} {l : List Str} (h : x ∈ l) :
    x <:+: joinStr sep l := by
  induction l with
  | nil => simp at h
  | cons w ws ih =>
    rcases List.mem_cons.mp h with he | he
    · subst he
      cases ws with
      | nil => exact List.infix_refl _
      | cons w' ws' =>
        exact ⟨[], sep ++ joinStr sep (w' :: ws'),
          by simp [joinStr, List.append_assoc]⟩
    · cases ws with
      | nil => simp at he
      | cons w' ws' =>
        refine (ih he).trans ⟨w ++ sep, [], ?_⟩
        simp [joinStr, List.append_assoc]

theorem infix_cons_append_single {x m : Str} (c1 c2 : Char) (h : x <:+: m) :
    x <:+: c1 :: m ++ [c2] := by
  rcases h with ⟨s, t, rfl⟩
  exact ⟨c1 :: s, t ++ [c2], by simp [List.append_assoc]⟩

theorem pattern_infix_serialize (r : FulfillRefOut) (refs : List FulfillRefOut)
    (h : r ∈ refs) :
    fulfillLikePattern r.verse_start_id <:+: serializeFulfillRefs refs := by
  have h1 : fulfillLikePattern r.verse_start_id ∈ fulfillRefFields r := by
    unfold fulfillLikePattern fulfillRefFields
    simp
  have h2 : fulfillLikePattern r.verse_start_id <:+: serializeFulfillRef r := by
    unfold serializeFulfillRef
    exact infix_cons_append_single _ _ (infix_joinStr h1)
  have h3 : serializeFulfillRef r <:+: serializeFulfillRefs refs := by
    unfold serializeFulfillRefs
    exact infix_cons_append_single _ _
      (infix_joinStr (List.mem_map_of_mem serializeFulfillRef h))
  exact h2.trans h3

theorem isSubstring_iff (needle hay : Str) :
    isSubstring needle hay = true ↔ needle <:+: hay := by
  unfold isSubstring
  rw [List.any_eq_true]
  constructor
  · rintro ⟨t, ht, hp⟩
    rw [List.mem_tails] at ht
    rw [List.isPrefixOf_iff_prefix] at hp
    exact List.infix_iff_prefix_suffix.mpr ⟨t, hp, ht⟩
  · intro h
    rcases List.infix_iff_prefix_suffix.mp h with ⟨t, hp, ht⟩
    exact ⟨t, (List.mem_tails _ _).mpr ht, List.isPrefixOf_iff_prefix.mpr hp⟩

/-- Claim C8: the two touching queries of `get_chapter_prophecies` return
exactly the matching records.  A prophecy is collected iff its anchored
range start or end id lies in the chapter's verse-id set, and a
(prophecy, fulfillment reference) pair is materialized iff the reference's
resolved start id lies in that set — the LIKE scan over serialized JSON
over-approximates but the subsequent exact membership and chapter checks
make the pair set exact (assuming globally unique verse ids). -/
theorem C8_touching_queries (c : Corpus) (chid : Nat) (props : List ProphecyRec)
    (hids : ∀ u ∈ c.verses, ∀ v ∈ c.verses, u.id = v.id → u = v) :
    (∀ mp, mp ∈ prophecyRangesTouching props (chapterVerseIds c chid) ↔
      mp ∈ props ∧ (mp.prophecy_verse_start ∈ chapterVerseIds c chid ∨
        mp.prophecy_verse_end ∈ chapterVerseIds c chid))
    ∧ (∀ mp r, (mp, r) ∈ chapterFulfillPairs c chid props ↔
      mp ∈ props ∧ r ∈ mp.fulfillment_references ∧
        r.verse_start_id ∈ chapterVerseIds c chid) := by
  constructor
  · intro mp
    unfold prophecyRangesTouching
    rw [List.mem_filter]
    simp only [Bool.or_eq_true, decide_eq_true_eq]
  · intro mp r
    unfold chapterFulfillPairs
    rw [List.mem_flatMap]
    constructor
    · rintro ⟨mp', hmp', hpair⟩
      rw [List.mem_filterMap] at hpair
      rcases hpair with ⟨r', hr', heq⟩
      by_cases h1 : r'.verse_start_id ∈ chapterVerseIds c chid
      · rw [if_pos h1] at heq
        rcases hv : getVerse c r'.verse_start_id with _ | v
        · rw [hv] at heq
          exact absurd
            (show (none : Option (ProphecyRec × FulfillRefOut)) = some (mp, r)
              from heq) (by simp)
        · rw [hv] at heq
          have heq' : (if v.chapter_id = chid then some (mp', r') else none)
              = some (mp, r) := heq
          by_cases h2 : v.chapter_id = chid
          · rw [if_pos h2] at heq'
            rw [Option.some.injEq, Prod.mk.injEq] at heq'
            obtain ⟨he1, he2⟩ := heq'
            refine ⟨?_, ?_, ?_⟩
            · rw [← he1]
              rcases (mem_fulfillProphecyLoop props _ mp').mp hmp' with ⟨vid, _, hrow⟩
              exact (List.mem_filter.mp hrow).1
            · rw [← he1, ← he2]
              exact hr'
            · rw [← he2]
              exact h1
          · rw [if_neg h2] at heq'
            exact absurd heq' (by simp)
      · rw [if_neg h1] at heq
        exact absurd heq (by simp)
    · rintro ⟨hmem, hr, hid⟩
      refine ⟨mp, ?_, ?_⟩
      · rw [mem_fulfillProphecyLoop]
        refine ⟨r.verse_start_id, hid, ?_⟩
        unfold fulfillLikeRows
        rw [List.mem_filter]
        exact ⟨hmem, (isSubstring_iff _ _).mpr (pattern_infix_serialize r _ hr)⟩
      · rw [List.mem_filterMap]
        refine ⟨r, hr, ?_⟩
        rw [if_pos hid]
        have hvex : ∃ v ∈ c.verses, v.id = r.verse_start_id ∧ v.chapter_id = chid := by
          unfold chapterVerseIds at hid
          rcases List.mem_map.mp hid with ⟨v, hvf, hvid⟩
          have hvm := List.mem_filter.mp hvf
          exact ⟨v, hvm.1, hvid, by simpa using hvm.2⟩
        rcases hvex with ⟨v, hvm, hvid, hvch⟩
        rcases hgv : getVerse c r.verse_start_id with _ | v'
        · exfalso
          unfold getVerse at hgv
          rw [List.find?_eq_none] at hgv
          exact hgv v hvm (by simp [hvid])
        · have hv'id : v'.id = r.verse_start_id := by
            simpa using List.find?_some hgv
          have hv'm : v' ∈ c.verses := List.mem_of_find?_eq_some hgv
          have hvv : v' = v := hids v' hv'm v hvm (by rw [hv'id, hvid])
          show (if v'.chapter_id = chid then some (mp, r) else none) = some (mp, r)
          rw [if_pos (by rw [hvv]; exact hvch)]

/-- Witness for C8 on the concrete corpus: the prophecy anchored at
Genesis 1:1 is collected for Genesis 1, and its (prophecy, reference) pair
is materialized for Matthew 1. -/
theorem C8_witness :
    prophecyRec1 ∈ prophecyRangesTouching [prophecyRec1]
      (chapterVerseIds importCorpus 1)
    ∧ (prophecyRec1, FulfillRefOut.mk ("Matthew".data) 1 1 1 3 3 ("direct".data))
      ∈ chapterFulfillPairs importCorpus 2 [prophecyRec1] := by
  have h1 := C8_touching_queries importCorpus 1 [prophecyRec1] (by decide)
  have h2 := C8_touching_queries importCorpus 2 [prophecyRec1] (by decide)
  constructor
  · exact (h1.1 prophecyRec1).mpr ⟨by decide, Or.inl (by decide)⟩
  · exact (h2.2 prophecyRec1
      (FulfillRefOut.mk ("Matthew".data) 1 1 1 3 3 ("direct".data))).mpr
      ⟨by decide, by decide, by decide⟩

end Libro
